import Mathlib

/-
  Verification of the activation-store pipeline in
  src/core/activation_store_theirs.py (class ActivationStoreTheirs).

  Shallow embedding conventions:
  * Token ids are Nat; a corpus record is its token sequence (List Nat).
    In the untokenized branch the opaque tokenizer turns the text into a
    flat token sequence, so at the level relevant to the claims a record
    is again a token list.
  * Tensors are nested lists.  After the reshape in get_buffer, a buffer
    row has shape (num_layers, d_in) and is a List (List A).
  * Python exceptions are modelled with Except StoreErr: next() on an
    exhausted iterator raises StopIteration, the cached-activation check
    raises NotImplementedError, and the opaque model hook may fail with
    an arbitrary error code.  Python's exception propagation is the
    error-propagating match on each fallible subcall.
  * torch.randperm is modelled by an oracle index list, used via applyPerm;
    theorems that need it assume the oracle is a permutation of range n,
    which is exactly torch.randperm's contract.
  * The DataLoader(shuffle=True, drop_last=False default) over the serve
    tensor is modelled as: apply a shuffle oracle, then cut into
    consecutive chunks of batch_size, the last chunk possibly short.
-/

namespace ActivationStore

instance {e a : Type} [DecidableEq e] [DecidableEq a] : DecidableEq (Except e a) := fun x y =>
  match x, y with
  | .error u, .error v =>
    if h : u = v then .isTrue (congrArg Except.error h)
    else .isFalse (fun hh => h (Except.error.inj hh))
  | .ok u, .ok v =>
    if h : u = v then .isTrue (congrArg Except.ok h)
    else .isFalse (fun hh => h (Except.ok.inj hh))
  | .error _, .ok _ => .isFalse (fun hh => Except.noConfusion hh)
  | .ok _, .error _ => .isFalse (fun hh => Except.noConfusion hh)

/-- Errors of the pipeline: StopIteration (iterator exhausted),
NotImplementedError (cached activations), and failures of the opaque
model hook collaborator. -/
inductive StoreErr where
  | stopIteration
  | notImplemented
  | hookFailure (code : Nat)
deriving DecidableEq

/-- The configuration fields of LanguageModelSAERunnerConfig that the
activation store reads. -/
structure Cfg where
  store_batch_size : Nat
  context_size : Nat
  train_batch_size : Nat
  d_model : Nat
  use_cached_activations : Bool
deriving DecidableEq

/-- The mutable locals of the packing loop in get_batch_tokens
(lines 53-58): the emitted windows (batch_tokens), the accumulator of
token spans of the window under construction (current_batch) and its
running length (current_length). -/
structure PackState where
  batch_tokens : List (List Nat)
  current_batch : List (List Nat)
  current_length : Nat
deriving DecidableEq

/-- The inner while loop of get_batch_tokens (lines 88-123), processing
the token sequence of one record.  The loop body either breaks (the
tokens fit in the space left, lines 93-96) or emits one completed window
and continues with the BOS-prefixed remainder (lines 98-123; after the
else branch current_length equals context_size, so the emission check of
line 117 always fires there).  Hence every iteration except the last
extends batch_tokens, whose length is bounded by bsz in the loop guard,
so a fuel of bsz + 1 is never exhausted; packTokensF_fuel below proves
the fuel irrelevance. -/
def packTokensF (bos ctx bsz : Nat) : Nat → List Nat → PackState → PackState
  | 0, _, st => st
  | fuel + 1, tokens, st =>
    if 0 < tokens.length ∧ st.batch_tokens.length < bsz then
      let space_left := ctx - st.current_length
      if tokens.length ≤ space_left then
        { st with
          current_batch := st.current_batch ++ [tokens]
          current_length := st.current_length + tokens.length }
      else
        packTokensF bos ctx bsz fuel (bos :: tokens.drop space_left)
          { batch_tokens :=
              st.batch_tokens ++ [(st.current_batch ++ [tokens.take space_left]).flatten]
            current_batch := []
            current_length := 0 }
    else st

/-- The inner while loop with its always-sufficient fuel. -/
def pack_tokens (bos ctx bsz : Nat) (tokens : List Nat) (st : PackState) : PackState :=
  packTokensF bos ctx bsz (bsz + 1) tokens st

/-- The outer while loop of get_batch_tokens (lines 61-126): while fewer
than store_batch_size windows are emitted, pull the next record (line 63
or 74; StopIteration if the corpus is exhausted) and run the inner loop;
finally return batch_tokens[:batch_size] (line 127) together with the
rest of the corpus. -/
def get_batch_tokens_go (bos : Nat) (cfg : Cfg) :
    List (List Nat) → PackState → Except StoreErr (List (List Nat) × List (List Nat))
  | records, st =>
    if st.batch_tokens.length < cfg.store_batch_size then
      match records with
      | [] => .error .stopIteration
      | r :: rs =>
        get_batch_tokens_go bos cfg rs
          (pack_tokens bos cfg.context_size cfg.store_batch_size r st)
    else .ok (st.batch_tokens.take cfg.store_batch_size, records)

/-- get_batch_tokens (lines 44-127): the locals start empty (lines 53-58)
on every call; only the corpus iterator persists, which is why the
remaining record list is threaded through. -/
def get_batch_tokens (bos : Nat) (cfg : Cfg) (records : List (List Nat)) :
    Except StoreErr (List (List Nat) × List (List Nat)) :=
  get_batch_tokens_go bos cfg records ⟨[], [], 0⟩

/-- Invariant of the packing loop: the accumulator length bookkeeping is
exact, the window under construction never exceeds context_size, every
emitted window has exactly context_size tokens, and at most bsz windows
are emitted. -/
def PackInv (ctx bsz : Nat) (st : PackState) : Prop :=
  st.current_batch.flatten.length = st.current_length ∧
  st.current_length ≤ ctx ∧
  (∀ w ∈ st.batch_tokens, w.length = ctx) ∧
  st.batch_tokens.length ≤ bsz

/-- All tokens the packer has absorbed, in order: the emitted windows
followed by the in-progress accumulator, with every boundary-marker
valued token removed.  This is the reconstruction the spec describes. -/
def reconstruct (bos : Nat) (st : PackState) : List Nat :=
  (st.batch_tokens.flatten ++ st.current_batch.flatten).filter (fun t => t != bos)

/-- The spec's reconstruction for a single record fed to a fresh packer. -/
def reconstructPack (bos ctx bsz : Nat) (r : List Nat) : List Nat :=
  reconstruct bos (pack_tokens bos ctx bsz r ⟨[], [], 0⟩)

/-- get_activations (lines 129-145) for a single window: the opaque
model hook E returns, per window position, the d_model activation vector
of the monitored hook point; torch.stack of the single-layer list along
dim 2 wraps each position's vector in a one-element layer list
(num_layers = 1, line 152). -/
def get_activations {α : Type} (E : List Nat → Except StoreErr (List (List α)))
    (w : List Nat) : Except StoreErr (List (List (List α))) :=
  match E w with
  | .error err => .error err
  | .ok acts => .ok (acts.map (fun v => [v]))

/-- get_activations across a batch of windows; the source makes one
batched model call, decomposed here per window. -/
def get_activations_batch {α : Type} (E : List Nat → Except StoreErr (List (List α))) :
    List (List Nat) → Except StoreErr (List (List (List (List α))))
  | [] => .ok []
  | w :: ws =>
    match get_activations E w with
    | .error err => .error err
    | .ok a =>
      match get_activations_batch E ws with
      | .error err => .error err
      | .ok rest => .ok (a :: rest)

/-- Fancy-index a list by a list of indices: the model of
tensor[torch.randperm(n)].  randperm's contract is that the index list
is a permutation of range n. -/
def applyPerm {α : Type} (p : List Nat) (l : List α) : List α :=
  p.filterMap (fun i => l[i]?)

/-- The refill loop of get_buffer (lines 165-172): n refills of
store_batch_size windows each, written into consecutive slices of the
preallocated buffer, i.e. concatenated in order. -/
def get_buffer_go {α : Type} (E : List Nat → Except StoreErr (List (List α)))
    (bos : Nat) (cfg : Cfg) :
    Nat → List (List Nat) → List (List (List (List α))) →
    Except StoreErr (List (List (List (List α))) × List (List Nat))
  | 0, records, acc => .ok (acc, records)
  | n + 1, records, acc =>
    match get_batch_tokens bos cfg records with
    | .error err => .error err
    | .ok (windows, rest) =>
      match get_activations_batch E windows with
      | .error err => .error err
      | .ok acts => get_buffer_go E bos cfg n rest (acc ++ acts)

/-- get_buffer (lines 147-177): the cached-activation check, the refill
loop, then reshape(-1, num_layers, d_in) — which flattens the window and
position axes into one row axis — and one full random permutation of the
rows. -/
def get_buffer {α : Type} (E : List Nat → Except StoreErr (List (List α)))
    (bos : Nat) (cfg : Cfg) (n_batches_in_buffer : Nat) (gp : List Nat)
    (records : List (List Nat)) :
    Except StoreErr (List (List (List α)) × List (List Nat)) :=
  if cfg.use_cached_activations then .error .notImplemented
  else
    match get_buffer_go E bos cfg n_batches_in_buffer records [] with
    | .error err => .error err
    | .ok (buf, rest) => .ok (applyPerm gp buf.flatten, rest)

/-- Cutting a dataset into consecutive batches of size bs, the last one
possibly short: DataLoader(batch_size := bs) keeps the remainder batch
because drop_last defaults to False.  The fuel is the list length; it
suffices because every step removes at least one element when bs is
nonzero. -/
def chunkGo {α : Type} (bs : Nat) : Nat → List α → List (List α)
  | 0, _ => []
  | _, [] => []
  | f + 1, x :: xs => (x :: xs).take bs :: chunkGo bs f ((x :: xs).drop bs)

def chunkList {α : Type} (bs : Nat) (l : List α) : List (List α) :=
  chunkGo bs l.length l

/-- get_data_loader (lines 179-213): build a fresh buffer of
128 // 2 window-batches, concatenate it with the storage buffer, permute
the union, keep the first half as the new storage buffer, and hand the
second half to a shuffling DataLoader of train_batch_size batches
(shuffle oracle q). -/
def get_data_loader {α : Type} (E : List Nat → Except StoreErr (List (List α)))
    (bos : Nat) (cfg : Cfg) (gp p q : List Nat)
    (records : List (List Nat)) (storage : List (List (List α))) :
    Except StoreErr ((List (List Nat) × List (List (List α))) × List (List (List (List α)))) :=
  match get_buffer E bos cfg (128 / 2) gp records with
  | .error err => .error err
  | .ok (fresh, rest) =>
    let mixing := applyPerm p (fresh ++ storage)
    .ok ((rest, mixing.take (mixing.length / 2)),
      chunkList cfg.train_batch_size (applyPerm q (mixing.drop (mixing.length / 2))))

/-- The persistent state of an ActivationStoreTheirs instance: the
corpus iterator position, self.storage_buffer, and the remaining batches
of self.dataloader. -/
structure RunState (α : Type) where
  records : List (List Nat)
  storage_buffer : List (List (List α))
  dataloader : List (List (List (List α)))
deriving DecidableEq

/-- next_batch (lines 215-226): pop the next batch from the current
DataLoader; on StopIteration rebuild the DataLoader via get_data_loader
and pop from the new one (an empty new DataLoader raises StopIteration
to the caller; errors during the rebuild are raised inside the except
handler and therefore propagate unchanged). -/
def next_batch {α : Type} (E : List Nat → Except StoreErr (List (List α)))
    (bos : Nat) (cfg : Cfg) (gp p q : List Nat) (st : RunState α) :
    Except StoreErr (List (List (List α)) × RunState α) :=
  match st.dataloader with
  | b :: bs => .ok (b, ⟨st.records, st.storage_buffer, bs⟩)
  | [] =>
    match get_data_loader E bos cfg gp p q st.records st.storage_buffer with
    | .error err => .error err
    | .ok ((rest, storage2), batches) =>
      match batches with
      | b :: bs => .ok (b, ⟨rest, storage2, bs⟩)
      | [] => .error .stopIteration

/-- Iterate next_batch k + 1 times and return the last call's result:
next_batch_n 0 is a single call. -/
def next_batch_n {α : Type} (E : List Nat → Except StoreErr (List (List α)))
    (bos : Nat) (cfg : Cfg) (gp p q : List Nat) :
    Nat → RunState α → Except StoreErr (List (List (List α)) × RunState α)
  | 0, st => next_batch E bos cfg gp p q st
  | k + 1, st =>
    match next_batch E bos cfg gp p q st with
    | .error err => .error err
    | .ok (_, st2) => next_batch_n E bos cfg gp p q k st2

/-- The constructor (lines 17-42): probe one record to detect whether
the dataset is tokenized (line 29; StopIteration on an empty corpus),
reset the iterator (line 34, so the corpus is unchanged), fail on the
cached-activation flag (lines 36-37), then fill the storage buffer with
get_buffer(128 // 2) and build the first DataLoader (lines 39-42).  When
create_dataloader is false the two attributes stay unset, modelled as
empty. -/
def init_store {α : Type} (E : List Nat → Except StoreErr (List (List α)))
    (bos : Nat) (cfg : Cfg) (gp0 gp p q : List Nat)
    (create_dataloader : Bool) (records : List (List Nat)) :
    Except StoreErr (RunState α) :=
  match records with
  | [] => .error .stopIteration
  | _ :: _ =>
    if cfg.use_cached_activations then .error .notImplemented
    else if create_dataloader then
      match get_buffer E bos cfg (128 / 2) gp0 records with
      | .error err => .error err
      | .ok (storage, rest) =>
        match get_data_loader E bos cfg gp p q rest storage with
        | .error err => .error err
        | .ok ((rest2, storage2), batches) => .ok ⟨rest2, storage2, batches⟩
    else .ok ⟨records, [], []⟩

/-- Shape of one window's activations after get_activations: context_size
positions, each a single-layer list of one d-dimensional vector. -/
def WindowActShape {α : Type} (ctx d : Nat) (a : List (List (List α))) : Prop :=
  a.length = ctx ∧ ∀ row ∈ a, row.length = 1 ∧ ∀ v ∈ row, v.length = d

theorem packTokensF_inv (bos ctx bsz : Nat) :
    ∀ (fuel : Nat) (tokens : List Nat) (st : PackState),
    PackInv ctx bsz st → PackInv ctx bsz (packTokensF bos ctx bsz fuel tokens st) := by
  intro fuel
  induction fuel with
  | zero => intro tokens st h; exact h
  | succ f ih =>
    intro tokens st h
    obtain ⟨h1, h2, h3, h4⟩ := h
    rw [packTokensF]
    split
    · dsimp only
      split
      · refine ⟨?_, ?_, h3, h4⟩
        · simp [List.flatten_append, h1]
        · simp only [List.length_append] at *
          omega
      · rename_i hcond hfit
        apply ih
        refine ⟨by simp, Nat.zero_le _, ?_, ?_⟩
        · intro w hw
          rcases List.mem_append.mp hw with hw | hw
          · exact h3 w hw
          · rcases List.mem_singleton.mp hw with rfl
            simp only [List.flatten_append, List.length_append, List.flatten_cons,
              List.flatten_nil, List.append_nil, List.length_take, h1]
            omega
        · simp only [List.length_append, List.length_cons, List.length_nil]
          omega
    · exact ⟨h1, h2, h3, h4⟩

theorem pack_tokens_inv (bos ctx bsz : Nat) (tokens : List Nat) (st : PackState)
    (h : PackInv ctx bsz st) : PackInv ctx bsz (pack_tokens bos ctx bsz tokens st) :=
  packTokensF_inv bos ctx bsz (bsz + 1) tokens st h

/-- On success, get_batch_tokens_go returns exactly store_batch_size
windows, each exactly context_size long. -/
theorem get_batch_tokens_go_spec (bos : Nat) (cfg : Cfg) :
    ∀ (records : List (List Nat)) (st : PackState),
    PackInv cfg.context_size cfg.store_batch_size st →
    ∀ ws rest, get_batch_tokens_go bos cfg records st = .ok (ws, rest) →
    (∀ w ∈ ws, w.length = cfg.context_size) ∧ ws.length = cfg.store_batch_size := by
  intro records
  induction records with
  | nil =>
    intro st h ws rest hok
    rw [get_batch_tokens_go] at hok
    split at hok
    · exact absurd hok (by simp)
    · rename_i hfull
      obtain ⟨hok1, _⟩ : st.batch_tokens.take cfg.store_batch_size = ws ∧ ([] : List (List Nat)) = rest := by
        simpa using hok
      subst hok1
      obtain ⟨_, _, h3, h4⟩ := h
      constructor
      · intro w hw
        exact h3 w (List.take_subset _ _ hw)
      · simp only [List.length_take]
        omega
  | cons r rs ih =>
    intro st h ws rest hok
    rw [get_batch_tokens_go] at hok
    split at hok
    · exact ih _ (pack_tokens_inv _ _ _ _ _ h) ws rest hok
    · rename_i hfull
      obtain ⟨hok1, _⟩ : st.batch_tokens.take cfg.store_batch_size = ws ∧ r :: rs = rest := by
        simpa using hok
      subst hok1
      obtain ⟨_, _, h3, h4⟩ := h
      constructor
      · intro w hw
        exact h3 w (List.take_subset _ _ hw)
      · simp only [List.length_take]
        omega

theorem packInv_init (ctx bsz : Nat) : PackInv ctx bsz ⟨[], [], 0⟩ :=
  ⟨by simp, Nat.zero_le _, by simp, Nat.zero_le _⟩

theorem get_batch_tokens_spec (bos : Nat) (cfg : Cfg) (records ws rest : _)
    (h : get_batch_tokens bos cfg records = .ok (ws, rest)) :
    (∀ w ∈ ws, w.length = cfg.context_size) ∧ ws.length = cfg.store_batch_size :=
  get_batch_tokens_go_spec bos cfg records ⟨[], [], 0⟩
    (packInv_init cfg.context_size cfg.store_batch_size) ws rest h

/-- Claim C1: every token window produced by get_batch_tokens has exactly
context_size tokens: every row of the returned batch has length
cfg.context_size. -/
theorem claim_C1 (bos : Nat) (cfg : Cfg) (records ws rest : _)
    (h : get_batch_tokens bos cfg records = .ok (ws, rest)) :
    ∀ w ∈ ws, w.length = cfg.context_size :=
  (get_batch_tokens_spec bos cfg records ws rest h).1

theorem claim_C1_witness :
    get_batch_tokens 0 ⟨1, 2, 1, 1, false⟩ [[1, 2, 3]] = .ok ([[1, 2]], []) ∧
    ([1, 2] : List Nat).length = (⟨1, 2, 1, 1, false⟩ : Cfg).context_size :=
  ⟨by decide, claim_C1 0 ⟨1, 2, 1, 1, false⟩ [[1, 2, 3]] [[1, 2]] [] (by decide)
    [1, 2] (by decide)⟩

/-- Claim C2: when a record overflows the current window, exactly
space_left tokens are appended, a single BOS token is prepended to the
remainder, and the remainder continues in a new window; concretely a
fresh packer on a 10-token record with context_size 4 emits
[t0,t1,t2,t3] and then [BOS,t4,t5,t6]. -/
theorem claim_C2 (t0 t1 t2 t3 t4 t5 t6 t7 t8 t9 bos : Nat) :
    get_batch_tokens bos ⟨2, 4, 1, 1, false⟩ [[t0, t1, t2, t3, t4, t5, t6, t7, t8, t9]] =
      .ok ([[t0, t1, t2, t3], [bos, t4, t5, t6]], []) := rfl

theorem packTokensF_stop (bos ctx bsz : Nat) (tokens : List Nat) (st : PackState)
    (h : ¬(0 < tokens.length ∧ st.batch_tokens.length < bsz)) :
    ∀ f, packTokensF bos ctx bsz f tokens st = st := by
  intro f
  cases f with
  | zero => rfl
  | succ g => rw [packTokensF, if_neg h]

/-- The fuel of packTokensF is irrelevant as soon as it exceeds the
number of windows the loop guard still allows to be emitted. -/
theorem packTokensF_fuel (bos ctx bsz : Nat) :
    ∀ (f f' : Nat) (tokens : List Nat) (st : PackState),
    bsz < f + st.batch_tokens.length → bsz < f' + st.batch_tokens.length →
    packTokensF bos ctx bsz f tokens st = packTokensF bos ctx bsz f' tokens st := by
  intro f
  induction f with
  | zero =>
    intro f' tokens st hf hf'
    have hstop : ¬(0 < tokens.length ∧ st.batch_tokens.length < bsz) := by
      intro hc; omega
    rw [packTokensF_stop bos ctx bsz tokens st hstop 0,
      packTokensF_stop bos ctx bsz tokens st hstop f']
  | succ g ih =>
    intro f' tokens st hf hf'
    cases f' with
    | zero =>
      have hstop : ¬(0 < tokens.length ∧ st.batch_tokens.length < bsz) := by
        intro hc; omega
      rw [packTokensF_stop bos ctx bsz tokens st hstop (g + 1),
        packTokensF_stop bos ctx bsz tokens st hstop 0]
    | succ g' =>
      rw [packTokensF, packTokensF]
      by_cases hc : 0 < tokens.length ∧ st.batch_tokens.length < bsz
      · rw [if_pos hc, if_pos hc]
        dsimp only
        by_cases hfit : tokens.length ≤ ctx - st.current_length
        · rw [if_pos hfit, if_pos hfit]
        · rw [if_neg hfit, if_neg hfit]
          exact ih g' _ _ (by simp; omega) (by simp; omega)
      · rw [if_neg hc, if_neg hc]

/-- Claim C10: when a record exactly fills the current window
(token_len equals space_left), the if branch of line 93 breaks before the
emission check of line 117, so the completed window stays in the
accumulator and nothing is emitted; when the next record is processed,
space_left is 0, the else branch fires immediately, the stored window is
emitted, and the next record continues as BOS prepended to its own
tokens even though it was never split. -/
theorem claim_C10 (bos ctx bsz : Nat) (r rq : List Nat) (st : PackState)
    (B A : List (List Nat))
    (hr : r ≠ []) (hfill : r.length = ctx - st.current_length)
    (hcl : st.current_length ≤ ctx) (hb : st.batch_tokens.length < bsz)
    (hrq : rq ≠ []) (hB : B.length < bsz) :
    pack_tokens bos ctx bsz r st =
      { batch_tokens := st.batch_tokens, current_batch := st.current_batch ++ [r],
        current_length := ctx } ∧
    pack_tokens bos ctx bsz rq ⟨B, A, ctx⟩ =
      pack_tokens bos ctx bsz (bos :: rq) ⟨B ++ [A.flatten], [], 0⟩ := by
  have hrpos : 0 < r.length := List.length_pos.mpr hr
  have hrqpos : 0 < rq.length := List.length_pos.mpr hrq
  constructor
  · unfold pack_tokens
    rw [packTokensF, if_pos ⟨hrpos, hb⟩]
    dsimp only
    rw [if_pos (le_of_eq hfill)]
    simp only [PackState.mk.injEq, true_and]
    omega
  · unfold pack_tokens
    conv_lhs => rw [packTokensF]
    rw [if_pos ⟨hrqpos, hB⟩]
    dsimp only
    rw [if_neg (by omega)]
    simp only [Nat.sub_self, List.drop_zero, List.take_zero]
    rw [show (A ++ [([] : List Nat)]).flatten = A.flatten by simp]
    exact packTokensF_fuel bos ctx bsz bsz (bsz + 1) _ _
      (by simp only [List.length_append, List.length_cons, List.length_nil]; omega)
      (by simp only [List.length_append, List.length_cons, List.length_nil]; omega)

theorem claim_C10_witness :
    ([4, 5] : List Nat).length = 2 - 0 ∧
    (pack_tokens 9 2 3 [4, 5] ⟨[], [], 0⟩ = ⟨[], [[4, 5]], 2⟩ ∧
      pack_tokens 9 2 3 [6] ⟨[], [[4, 5]], 2⟩ = pack_tokens 9 2 3 [9, 6] ⟨[[4, 5]], [], 0⟩) :=
  ⟨by decide, claim_C10 9 2 3 [4, 5] [6] ⟨[], [], 0⟩ [] [[4, 5]] (by decide) (by decide)
    (by decide) (by decide) (by decide) (by decide)⟩

/-- As long as the batch cap was not reached (so no tokens were cut off),
one run of the inner loop adds exactly the record's non-BOS-valued tokens
to the reconstruction. -/
theorem packTokensF_reconstruct (bos ctx bsz : Nat) :
    ∀ (f : Nat) (ts : List Nat) (st : PackState),
    bsz < f + st.batch_tokens.length →
    (packTokensF bos ctx bsz f ts st).batch_tokens.length < bsz →
    reconstruct bos (packTokensF bos ctx bsz f ts st) =
      reconstruct bos st ++ ts.filter (fun t => t != bos) := by
  intro f
  induction f with
  | zero =>
    intro ts st hf hlt
    exact absurd hlt (by simp only [packTokensF]; omega)
  | succ g ih =>
    intro ts st hf hlt
    by_cases hc : 0 < ts.length ∧ st.batch_tokens.length < bsz
    · rw [packTokensF, if_pos hc] at hlt ⊢
      dsimp only at hlt ⊢
      by_cases hfit : ts.length ≤ ctx - st.current_length
      · rw [if_pos hfit] at hlt ⊢
        simp [reconstruct, List.flatten_append, List.filter_append]
      · rw [if_neg hfit] at hlt ⊢
        rw [ih _ _ (by simp; omega) hlt]
        simp [reconstruct, List.filter_append]
        rw [← List.filter_append, List.take_append_drop]
    · rw [packTokensF, if_neg hc] at hlt ⊢
      have hts : ts = [] := by
        by_cases h0 : ts = []
        · exact h0
        · exact absurd ⟨List.length_pos.mpr h0, hlt⟩ hc
      subst hts
      simp

theorem claim_C7_counterexample :
    reconstructPack 5 4 10 [5, 1, 2, 3, 4] ≠ [5, 1, 2, 3, 4] := by decide

/-- Claim C7 (amended): for a record that contains no occurrence of the
boundary-marker id, fed to a fresh packer whose run does not hit the
batch-size cap, concatenating the non-boundary-marker tokens of the
produced windows (the emitted ones followed by the final in-progress
partial window) reconstructs the record exactly. -/
theorem claim_C7_amended (bos ctx bsz : Nat) (r : List Nat)
    (hbos : bos ∉ r)
    (hcomplete : (pack_tokens bos ctx bsz r ⟨[], [], 0⟩).batch_tokens.length < bsz) :
    reconstructPack bos ctx bsz r = r := by
  unfold reconstructPack pack_tokens
  rw [packTokensF_reconstruct bos ctx bsz (bsz + 1) r ⟨[], [], 0⟩ (by simp) hcomplete]
  have hfilter : r.filter (fun t => t != bos) = r := by
    rw [List.filter_eq_self]
    intro a ha
    have hne : a ≠ bos := fun h => hbos (h ▸ ha)
    simpa using hne
  simp [reconstruct, hfilter]

theorem claim_C7_amended_witness :
    (0 : Nat) ∉ ([1, 2, 3, 4, 5, 6] : List Nat) ∧
    reconstructPack 0 4 10 [1, 2, 3, 4, 5, 6] = [1, 2, 3, 4, 5, 6] :=
  ⟨by decide, claim_C7_amended 0 4 10 [1, 2, 3, 4, 5, 6] (by decide) (by decide)⟩

theorem get_activations_batch_spec {α : Type} (E : List Nat → Except StoreErr (List (List α)))
    (ctx d : Nat)
    (hE : ∀ w r, E w = .ok r → r.length = w.length)
    (hE2 : ∀ w r, E w = .ok r → ∀ v ∈ r, v.length = d) :
    ∀ (ws : List (List Nat)) (acts : List (List (List (List α)))),
    (∀ w ∈ ws, w.length = ctx) →
    get_activations_batch E ws = .ok acts →
    acts.length = ws.length ∧ ∀ a ∈ acts, WindowActShape ctx d a := by
  intro ws
  induction ws with
  | nil =>
    intro acts _ h
    rw [get_activations_batch] at h
    obtain rfl : ([] : List (List (List (List α)))) = acts := by simpa using h
    simp [WindowActShape]
  | cons w ws ih =>
    intro acts hws h
    rw [get_activations_batch] at h
    cases hEw : get_activations E w with
    | error err => rw [hEw] at h; exact absurd h (by simp)
    | ok a =>
      rw [hEw] at h
      cases hrec : get_activations_batch E ws with
      | error err => rw [hrec] at h; exact absurd h (by simp)
      | ok rest =>
        rw [hrec] at h
        obtain rfl : a :: rest = acts := by simpa using h
        obtain ⟨ih1, ih2⟩ := ih rest (fun x hx => hws x (List.mem_cons_of_mem _ hx)) hrec
        have hashape : WindowActShape ctx d a := by
          rw [get_activations] at hEw
          cases hEr : E w with
          | error err => rw [hEr] at hEw; exact absurd hEw (by simp)
          | ok r =>
            rw [hEr] at hEw
            obtain rfl : r.map (fun v => [v]) = a := by simpa using hEw
            refine ⟨?_, ?_⟩
            · rw [List.length_map, hE w r hEr, hws w (List.mem_cons_self _ _)]
            · intro row hrow
              obtain ⟨v, hv, rfl⟩ := List.mem_map.mp hrow
              exact ⟨rfl, by simpa using hE2 w r hEr v hv⟩
        constructor
        · simp [ih1]
        · intro x hx
          rcases List.mem_cons.mp hx with rfl | hx2
          · exact hashape
          · exact ih2 x hx2

theorem get_buffer_go_spec {α : Type} (E : List Nat → Except StoreErr (List (List α)))
    (bos : Nat) (cfg : Cfg) (d : Nat)
    (hE : ∀ w r, E w = .ok r → r.length = w.length)
    (hE2 : ∀ w r, E w = .ok r → ∀ v ∈ r, v.length = d) :
    ∀ (n : Nat) (records : List (List Nat)) (acc buf : List (List (List (List α))))
      (rest : List (List Nat)),
    (∀ a ∈ acc, WindowActShape cfg.context_size d a) →
    get_buffer_go E bos cfg n records acc = .ok (buf, rest) →
    buf.length = acc.length + n * cfg.store_batch_size ∧
    ∀ a ∈ buf, WindowActShape cfg.context_size d a := by
  intro n
  induction n with
  | zero =>
    intro records acc buf rest hacc h
    rw [get_buffer_go] at h
    obtain ⟨rfl, rfl⟩ : acc = buf ∧ records = rest := by simpa using h
    exact ⟨by simp, hacc⟩
  | succ n ih =>
    intro records acc buf rest hacc h
    rw [get_buffer_go] at h
    cases hbt : get_batch_tokens bos cfg records with
    | error err => rw [hbt] at h; exact absurd h (by simp)
    | ok wr =>
      obtain ⟨windows, rest1⟩ := wr
      rw [hbt] at h
      dsimp only at h
      cases hab : get_activations_batch E windows with
      | error err => rw [hab] at h; exact absurd h (by simp)
      | ok acts =>
        rw [hab] at h
        obtain ⟨hws, hcount⟩ := get_batch_tokens_spec bos cfg records windows rest1 hbt
        obtain ⟨halen, hashape⟩ :=
          get_activations_batch_spec E cfg.context_size d hE hE2 windows acts hws hab
        obtain ⟨ihlen, ihshape⟩ := ih rest1 (acc ++ acts) buf rest
          (fun a ha => (List.mem_append.mp ha).elim (hacc a) (hashape a)) h
        refine ⟨?_, ihshape⟩
        rw [ihlen, List.length_append, halen, hcount, Nat.succ_mul]
        omega

theorem applyPerm_range {α : Type} : ∀ (l : List α), applyPerm (List.range l.length) l = l := by
  intro l
  induction l with
  | nil => rfl
  | cons a l ih =>
    show (List.range (l.length + 1)).filterMap (fun i => (a :: l)[i]?) = a :: l
    rw [List.range_succ_eq_map, List.filterMap_cons]
    simp only [List.getElem?_cons_zero]
    congr 1
    rw [List.filterMap_map]
    have hcomp : ((fun i => (a :: l)[i]?) ∘ Nat.succ) = (fun i => l[i]?) := by
      funext i
      simp
    rw [hcomp]
    exact ih

theorem applyPerm_perm {α : Type} (p : List Nat) (l : List α)
    (hp : p.Perm (List.range l.length)) : (applyPerm p l).Perm l := by
  have h1 : (applyPerm p l).Perm (applyPerm (List.range l.length) l) :=
    hp.filterMap (fun i => l[i]?)
  rw [applyPerm_range] at h1
  exact h1

theorem flatten_length_uniform {α : Type} (c : Nat) :
    ∀ (L : List (List α)), (∀ a ∈ L, a.length = c) → L.flatten.length = L.length * c := by
  intro L
  induction L with
  | nil => simp
  | cons a L ih =>
    intro h
    simp only [List.flatten_cons, List.length_append, List.length_cons]
    rw [ih (fun x hx => h x (List.mem_cons_of_mem _ hx)), h a (List.mem_cons_self _ _),
      Nat.succ_mul]
    omega

theorem chunkGo_flatten {α : Type} (bs : Nat) (hbs : 1 ≤ bs) :
    ∀ (f : Nat) (l : List α), l.length ≤ f → (chunkGo bs f l).flatten = l := by
  intro f
  induction f with
  | zero =>
    intro l hl
    have hnil : l = [] := List.eq_nil_of_length_eq_zero (Nat.le_zero.mp hl)
    subst hnil
    rfl
  | succ g ih =>
    intro l hl
    cases l with
    | nil => rfl
    | cons x xs =>
      rw [chunkGo]
      simp only [List.flatten_cons]
      rw [ih _ (by simp only [List.length_drop, List.length_cons] at hl ⊢; omega)]
      exact List.take_append_drop bs (x :: xs)

theorem chunkList_flatten {α : Type} (bs : Nat) (hbs : 1 ≤ bs) (l : List α) :
    (chunkList bs l).flatten = l :=
  chunkGo_flatten bs hbs l.length l le_rfl

theorem chunkGo_ne_nil_of_ne_nil {α : Type} (bs g : Nat) (l : List α)
    (hl : l ≠ []) (hg : l.length ≤ g) : chunkGo bs g l ≠ [] := by
  cases g with
  | zero =>
    exact absurd (List.eq_nil_of_length_eq_zero (Nat.le_zero.mp hg)) hl
  | succ g' =>
    cases l with
    | nil => exact absurd rfl hl
    | cons x xs => rw [chunkGo]; simp

theorem chunkGo_dropLast {α : Type} (bs : Nat) (hbs : 1 ≤ bs) :
    ∀ (f : Nat) (l : List α), l.length ≤ f →
    ∀ b ∈ (chunkGo bs f l).dropLast, b.length = bs := by
  intro f
  induction f with
  | zero =>
    intro l hl b hb
    have hnil : l = [] := List.eq_nil_of_length_eq_zero (Nat.le_zero.mp hl)
    subst hnil
    simp [chunkGo] at hb
  | succ g ih =>
    intro l hl b hb
    cases l with
    | nil => simp [chunkGo] at hb
    | cons x xs =>
      rw [chunkGo] at hb
      cases hrec : chunkGo bs g ((x :: xs).drop bs) with
      | nil =>
        rw [hrec] at hb
        simp at hb
      | cons c cs =>
        rw [hrec, List.dropLast_cons₂] at hb
        rcases List.mem_cons.mp hb with rfl | hb2
        · have hne : (x :: xs).drop bs ≠ [] := by
            intro hnil
            rw [hnil] at hrec
            cases g with
            | zero => simp [chunkGo] at hrec
            | succ g2 => simp [chunkGo] at hrec
          have hlen : bs < (x :: xs).length := by
            by_contra hcon
            push_neg at hcon
            exact hne (List.drop_eq_nil_of_le hcon)
          simp only [List.length_take]
          omega
        · rw [← hrec] at hb2
          exact ih _ (by simp only [List.length_drop, List.length_cons] at hl ⊢; omega) b hb2

theorem chunkGo_mem_len {α : Type} (bs : Nat) (hbs : 1 ≤ bs) :
    ∀ (f : Nat) (l : List α), l.length ≤ f →
    ∀ b ∈ chunkGo bs f l, 1 ≤ b.length ∧ b.length ≤ bs := by
  intro f
  induction f with
  | zero =>
    intro l hl b hb
    have hnil : l = [] := List.eq_nil_of_length_eq_zero (Nat.le_zero.mp hl)
    subst hnil
    simp [chunkGo] at hb
  | succ g ih =>
    intro l hl b hb
    cases l with
    | nil => simp [chunkGo] at hb
    | cons x xs =>
      rw [chunkGo] at hb
      rcases List.mem_cons.mp hb with rfl | hb2
      · simp only [List.length_take, List.length_cons]
        omega
      · exact ih _ (by simp only [List.length_drop, List.length_cons] at hl ⊢; omega) b hb2

/-- On success, get_buffer returns n_batches_in_buffer × store_batch_size
× context_size rows, each of shape (num_layers, d_in) = (1, d). -/
theorem get_buffer_spec {α : Type} (E : List Nat → Except StoreErr (List (List α)))
    (bos : Nat) (cfg : Cfg) (d n : Nat) (gp : List Nat)
    (records : List (List Nat)) (buf : List (List (List α))) (rest : List (List Nat))
    (hE : ∀ w r, E w = .ok r → r.length = w.length)
    (hE2 : ∀ w r, E w = .ok r → ∀ v ∈ r, v.length = d)
    (hgp : gp.Perm (List.range (n * cfg.store_batch_size * cfg.context_size)))
    (h : get_buffer E bos cfg n gp records = .ok (buf, rest)) :
    buf.length = n * cfg.store_batch_size * cfg.context_size ∧
    ∀ row ∈ buf, row.length = 1 ∧ ∀ v ∈ row, v.length = d := by
  rw [get_buffer] at h
  split at h
  · exact absurd h (by simp)
  · cases hgo : get_buffer_go E bos cfg n records [] with
    | error err => rw [hgo] at h; exact absurd h (by simp)
    | ok br =>
      obtain ⟨buf4, rest1⟩ := br
      rw [hgo] at h
      dsimp only at h
      obtain ⟨rfl, rfl⟩ : applyPerm gp buf4.flatten = buf ∧ rest1 = rest := by simpa using h
      obtain ⟨hlen4, hshape4⟩ := get_buffer_go_spec E bos cfg d hE hE2 n records [] buf4 rest1
        (by simp) hgo
      have hflat : buf4.flatten.length = n * cfg.store_batch_size * cfg.context_size := by
        rw [flatten_length_uniform cfg.context_size buf4 (fun a ha => (hshape4 a ha).1), hlen4]
        simp
      have hperm : (applyPerm gp buf4.flatten).Perm buf4.flatten :=
        applyPerm_perm gp buf4.flatten (by rwa [hflat])
      constructor
      · rw [hperm.length_eq, hflat]
      · intro row hrow
        have hrow2 : row ∈ buf4.flatten := hperm.mem_iff.mp hrow
        obtain ⟨a, ha, hrowa⟩ := List.mem_flatten.mp hrow2
        exact (hshape4 a ha).2 row hrowa

theorem claim_C3_counterexample :
    (get_buffer (fun w => .ok (w.map (fun t => [t]))) 0 ⟨2, 2, 1, 1, false⟩ 3
      (List.range 12) (List.replicate 3 [1, 2, 3, 4, 5])).toOption.map
        (fun r => r.1.length) = some 12 ∧ (12 : Nat) ≠ 2 * 3 := by
  exact ⟨by decide, by decide⟩

/-- Claim C3 (amended): get_buffer(n_windows_worth) returns a buffer of
exactly store_batch_size × n_windows_worth × context_size activation
rows, each of shape (num_layers, d_model) = (1, d_model): the
reshape(-1, num_layers, d_in) before the permutation flattens the window
and position axes, so the buffer's record axis is per token position,
not per window. -/
theorem claim_C3_amended {α : Type} (E : List Nat → Except StoreErr (List (List α)))
    (bos : Nat) (cfg : Cfg) (n : Nat) (gp : List Nat)
    (records : List (List Nat)) (buf : List (List (List α))) (rest : List (List Nat))
    (hE : ∀ w r, E w = .ok r → r.length = w.length)
    (hE2 : ∀ w r, E w = .ok r → ∀ v ∈ r, v.length = cfg.d_model)
    (hgp : gp.Perm (List.range (cfg.store_batch_size * n * cfg.context_size)))
    (h : get_buffer E bos cfg n gp records = .ok (buf, rest)) :
    buf.length = cfg.store_batch_size * n * cfg.context_size ∧
    ∀ row ∈ buf, row.length = 1 ∧ ∀ v ∈ row, v.length = cfg.d_model := by
  have hcomm : cfg.store_batch_size * n = n * cfg.store_batch_size := Nat.mul_comm _ _
  rw [hcomm] at hgp ⊢
  exact get_buffer_spec E bos cfg cfg.d_model n gp records buf rest hE hE2 hgp h

theorem claim_C3_amended_witness :
    get_buffer (fun w => .ok (w.map (fun t => [t]))) 0 ⟨2, 2, 1, 1, false⟩ 3
      (List.range 12) (List.replicate 3 [1, 2, 3, 4, 5]) =
      .ok ([[[1]], [[2]], [[0]], [[3]], [[1]], [[2]], [[0]], [[3]], [[1]], [[2]], [[0]], [[3]]],
        []) ∧
    ([[[1]], [[2]], [[0]], [[3]], [[1]], [[2]], [[0]], [[3]], [[1]], [[2]], [[0]], [[3]]] :
      List (List (List Nat))).length = 2 * 3 * 2 :=
  ⟨by decide,
    (claim_C3_amended (fun w => .ok (w.map (fun t => [t]))) 0 ⟨2, 2, 1, 1, false⟩ 3
      (List.range 12) (List.replicate 3 [1, 2, 3, 4, 5]) _ []
      (fun w r h => by
        obtain rfl : w.map (fun t => [t]) = r := Except.ok.inj h
        simp)
      (fun w r h v hv => by
        obtain rfl : w.map (fun t => [t]) = r := Except.ok.inj h
        obtain ⟨t, ht, rfl⟩ := List.mem_map.mp hv
        simp)
      (List.Perm.refl _) (by decide)).1⟩

/-- Claim C4: one remix cycle conserves records: with the permutation
oracles being genuine permutations (torch.randperm's contract), the new
storage buffer together with all records served by the new DataLoader is
a permutation — hence multiset-equal — of the freshly built buffer
concatenated with the previous storage buffer; nothing is dropped or
duplicated by the permutation and half-split. -/
theorem claim_C4 {α : Type} (E : List Nat → Except StoreErr (List (List α)))
    (bos : Nat) (cfg : Cfg) (gp p q : List Nat)
    (records : List (List Nat)) (storage fresh : List (List (List α)))
    (rest rest2 : List (List Nat)) (stor2 : List (List (List α)))
    (batches : List (List (List (List α))))
    (hbs : 1 ≤ cfg.train_batch_size)
    (hfresh : get_buffer E bos cfg (128 / 2) gp records = .ok (fresh, rest))
    (hp : p.Perm (List.range (fresh.length + storage.length)))
    (hq : q.Perm (List.range
      (fresh.length + storage.length - (fresh.length + storage.length) / 2)))
    (h : get_data_loader E bos cfg gp p q records storage = .ok ((rest2, stor2), batches)) :
    (stor2 ++ batches.flatten).Perm (fresh ++ storage) := by
  rw [get_data_loader, hfresh] at h
  dsimp only at h
  obtain ⟨⟨rfl, rfl⟩, rfl⟩ :
      (rest = rest2 ∧
        (applyPerm p (fresh ++ storage)).take ((applyPerm p (fresh ++ storage)).length / 2) =
          stor2) ∧
      chunkList cfg.train_batch_size
        (applyPerm q ((applyPerm p (fresh ++ storage)).drop
          ((applyPerm p (fresh ++ storage)).length / 2))) = batches := by
    simpa using h
  have hmix : (applyPerm p (fresh ++ storage)).Perm (fresh ++ storage) :=
    applyPerm_perm p _ (by rwa [List.length_append])
  have hmlen : (applyPerm p (fresh ++ storage)).length = fresh.length + storage.length := by
    rw [hmix.length_eq, List.length_append]
  have hserve :
      (applyPerm q ((applyPerm p (fresh ++ storage)).drop
        ((applyPerm p (fresh ++ storage)).length / 2))).Perm
      ((applyPerm p (fresh ++ storage)).drop ((applyPerm p (fresh ++ storage)).length / 2)) :=
    applyPerm_perm q _ (by rw [List.length_drop, hmlen]; exact hq)
  rw [chunkList_flatten cfg.train_batch_size hbs]
  refine ((hserve.append_left _).trans ?_)
  rw [List.take_append_drop]
  exact hmix

set_option maxRecDepth 1000000 in
theorem claim_C4_witness :
    get_data_loader (fun w => .ok (w.map (fun t => [t]))) 0 ⟨1, 1, 64, 1, false⟩
      (List.range 64) (List.range 128) (List.range 64)
      (List.replicate 70 [5, 6]) (List.replicate 64 [[7]]) =
      .ok ((List.replicate 6 [5, 6], List.replicate 64 [[5]]), [List.replicate 64 [[7]]]) ∧
    (List.replicate 64 [[5]] ++
      ([List.replicate 64 [[7]]] : List (List (List (List Nat)))).flatten).Perm
      (List.replicate 64 [[5]] ++ List.replicate 64 [[7]]) :=
  ⟨by decide,
    claim_C4 (fun w => .ok (w.map (fun t => [t]))) 0 ⟨1, 1, 64, 1, false⟩
      (List.range 64) (List.range 128) (List.range 64)
      (List.replicate 70 [5, 6]) (List.replicate 64 [[7]]) (List.replicate 64 [[5]])
      (List.replicate 6 [5, 6]) (List.replicate 6 [5, 6]) (List.replicate 64 [[5]])
      [List.replicate 64 [[7]]]
      (by decide) (by decide) (List.Perm.refl _) (List.Perm.refl _) (by decide)⟩

/-- Claim C5: if the previous storage buffer has the canonical half-fill
size 128/2 × store_batch_size × context_size rows (which the constructor
establishes and, by this very theorem, every cycle preserves), then the
remix produces a new storage buffer of exactly the previous storage
buffer's size and a serve buffer of exactly the storage buffer's size. -/
theorem claim_C5 {α : Type} (E : List Nat → Except StoreErr (List (List α)))
    (bos : Nat) (cfg : Cfg) (gp p q : List Nat)
    (records : List (List Nat)) (storage : List (List (List α)))
    (rest2 : List (List Nat)) (stor2 : List (List (List α)))
    (batches : List (List (List (List α))))
    (hE : ∀ w r, E w = .ok r → r.length = w.length)
    (hE2 : ∀ w r, E w = .ok r → ∀ v ∈ r, v.length = cfg.d_model)
    (hstor : storage.length = 128 / 2 * cfg.store_batch_size * cfg.context_size)
    (hgp : gp.Perm (List.range (128 / 2 * cfg.store_batch_size * cfg.context_size)))
    (hp : p.Perm (List.range (storage.length + storage.length)))
    (hq : q.Perm (List.range storage.length))
    (hbs : 1 ≤ cfg.train_batch_size)
    (h : get_data_loader E bos cfg gp p q records storage = .ok ((rest2, stor2), batches)) :
    stor2.length = storage.length ∧ batches.flatten.length = stor2.length := by
  rw [get_data_loader] at h
  cases hfresh : get_buffer E bos cfg (128 / 2) gp records with
  | error err => rw [hfresh] at h; exact absurd h (by simp)
  | ok fr =>
    obtain ⟨fresh, rest⟩ := fr
    rw [hfresh] at h
    dsimp only at h
    have hflen : fresh.length = 128 / 2 * cfg.store_batch_size * cfg.context_size :=
      (get_buffer_spec E bos cfg cfg.d_model (128 / 2) gp records fresh rest
        hE hE2 hgp hfresh).1
    obtain ⟨⟨rfl, rfl⟩, rfl⟩ :
        (rest = rest2 ∧
          (applyPerm p (fresh ++ storage)).take ((applyPerm p (fresh ++ storage)).length / 2) =
            stor2) ∧
        chunkList cfg.train_batch_size
          (applyPerm q ((applyPerm p (fresh ++ storage)).drop
            ((applyPerm p (fresh ++ storage)).length / 2))) = batches := by
      simpa using h
    have hmix : (applyPerm p (fresh ++ storage)).Perm (fresh ++ storage) :=
      applyPerm_perm p _ (by rw [List.length_append, hflen, ← hstor]; exact hp)
    have hmlen : (applyPerm p (fresh ++ storage)).length = storage.length + storage.length := by
      rw [hmix.length_eq, List.length_append, hflen, ← hstor]
    have hserve :
        (applyPerm q ((applyPerm p (fresh ++ storage)).drop
          ((applyPerm p (fresh ++ storage)).length / 2))).Perm
        ((applyPerm p (fresh ++ storage)).drop ((applyPerm p (fresh ++ storage)).length / 2)) :=
      applyPerm_perm q _ (by
        rw [List.length_drop, hmlen]
        have harith : storage.length + storage.length -
            (storage.length + storage.length) / 2 = storage.length := by omega
        rw [harith]
        exact hq)
    constructor
    · rw [List.length_take, hmlen]
      omega
    · rw [chunkList_flatten cfg.train_batch_size hbs, hserve.length_eq, List.length_drop,
        List.length_take, hmlen]
      omega

set_option maxRecDepth 1000000 in
theorem claim_C5_witness :
    get_data_loader (fun w => .ok (w.map (fun t => [t]))) 0 ⟨1, 1, 64, 1, false⟩
      (List.range 64) (List.range 128) (List.range 64)
      (List.replicate 70 [5, 6]) (List.replicate 64 [[7]]) =
      .ok ((List.replicate 6 [5, 6], List.replicate 64 [[5]]), [List.replicate 64 [[7]]]) ∧
    ((List.replicate 64 [[5]] : List (List (List Nat))).length =
        (List.replicate 64 [[7]] : List (List (List Nat))).length ∧
      ([List.replicate 64 [[7]]] : List (List (List (List Nat)))).flatten.length =
        (List.replicate 64 [[5]] : List (List (List Nat))).length) :=
  ⟨by decide,
    claim_C5 (fun w => .ok (w.map (fun t => [t]))) 0 ⟨1, 1, 64, 1, false⟩
      (List.range 64) (List.range 128) (List.range 64)
      (List.replicate 70 [5, 6]) (List.replicate 64 [[7]])
      (List.replicate 6 [5, 6]) (List.replicate 64 [[5]]) [List.replicate 64 [[7]]]
      (fun w r h => by
        obtain rfl : w.map (fun t => [t]) = r := Except.ok.inj h
        simp)
      (fun w r h v hv => by
        obtain rfl : w.map (fun t => [t]) = r := Except.ok.inj h
        obtain ⟨t, ht, rfl⟩ := List.mem_map.mp hv
        simp)
      (by decide) (List.Perm.refl _) (List.Perm.refl _) (List.Perm.refl _)
      (by decide) (by decide)⟩

set_option maxRecDepth 1000000 in
theorem claim_C6_counterexample :
    (Except.bind
      (init_store (fun w => .ok (w.map (fun t => [t]))) 0 ⟨1, 1, 3, 1, false⟩
        (List.range 64) (List.range 64) (List.range 128) (List.range 64) true
        (List.replicate 140 [5, 6]))
      (fun st => next_batch_n (fun w => .ok (w.map (fun t => [t]))) 0 ⟨1, 1, 3, 1, false⟩
        (List.range 64) (List.range 128) (List.range 64) 21 st)).toOption.map
      (fun r => r.1.length) = some 1 ∧
    (1 : Nat) ≠ (⟨1, 1, 3, 1, false⟩ : Cfg).train_batch_size := by
  exact ⟨by decide, by decide⟩

/-- Claim C6 (amended): every batch next_batch serves from one DataLoader
generation has at least one and at most train_batch_size records, and
every batch before the last one of the generation has exactly
train_batch_size records; the final batch of a generation may be shorter
because the DataLoader is built without drop_last, so the remainder
batch is returned rather than an error being raised. -/
theorem claim_C6_amended {α : Type} (E : List Nat → Except StoreErr (List (List α)))
    (bos : Nat) (cfg : Cfg) (gp p q : List Nat)
    (records : List (List Nat)) (storage : List (List (List α)))
    (rest2 : List (List Nat)) (stor2 : List (List (List α)))
    (batches : List (List (List (List α))))
    (hbs : 1 ≤ cfg.train_batch_size)
    (h : get_data_loader E bos cfg gp p q records storage = .ok ((rest2, stor2), batches)) :
    (∀ b ∈ batches.dropLast, b.length = cfg.train_batch_size) ∧
    ∀ b ∈ batches, 1 ≤ b.length ∧ b.length ≤ cfg.train_batch_size := by
  rw [get_data_loader] at h
  cases hfresh : get_buffer E bos cfg (128 / 2) gp records with
  | error err => rw [hfresh] at h; exact absurd h (by simp)
  | ok fr =>
    obtain ⟨fresh, rest⟩ := fr
    rw [hfresh] at h
    dsimp only at h
    obtain ⟨_, rfl⟩ :
        (rest = rest2 ∧
          (applyPerm p (fresh ++ storage)).take ((applyPerm p (fresh ++ storage)).length / 2) =
            stor2) ∧
        chunkList cfg.train_batch_size
          (applyPerm q ((applyPerm p (fresh ++ storage)).drop
            ((applyPerm p (fresh ++ storage)).length / 2))) = batches := by
      simpa using h
    exact ⟨chunkGo_dropLast cfg.train_batch_size hbs _ _ le_rfl,
      chunkGo_mem_len cfg.train_batch_size hbs _ _ le_rfl⟩

set_option maxRecDepth 1000000 in
theorem claim_C6_amended_witness :
    get_data_loader (fun w => .ok (w.map (fun t => [t]))) 0 ⟨1, 1, 3, 1, false⟩
      (List.range 64) (List.range 128) (List.range 64)
      (List.replicate 70 [5, 6]) (List.replicate 64 [[7]]) =
      .ok ((List.replicate 6 [5, 6], List.replicate 64 [[5]]),
        List.replicate 21 (List.replicate 3 [[7]]) ++ [[[[7]]]]) ∧
    ∀ b ∈ (List.replicate 21 (List.replicate 3 ([[7]] : List (List Nat))) ++ [[[[7]]]]),
      1 ≤ b.length ∧ b.length ≤ (⟨1, 1, 3, 1, false⟩ : Cfg).train_batch_size :=
  ⟨by decide,
    (claim_C6_amended (fun w => .ok (w.map (fun t => [t]))) 0 ⟨1, 1, 3, 1, false⟩
      (List.range 64) (List.range 128) (List.range 64)
      (List.replicate 70 [5, 6]) (List.replicate 64 [[7]])
      (List.replicate 6 [5, 6]) (List.replicate 64 [[5]])
      (List.replicate 21 (List.replicate 3 [[7]]) ++ [[[[7]]]])
      (by decide) (by decide)).2⟩

/-- Claim C8: if the current DataLoader is exhausted and the rebuild via
get_data_loader fails — for any reason: corpus exhaustion in the packer,
or a model-hook failure in the extractor — then next_batch returns that
very error: the except handler of next_batch only catches the
StopIteration of the old DataLoader, so errors raised while rebuilding
propagate unmodified and no partial batch or buffer is returned. -/
theorem claim_C8 {α : Type} (E : List Nat → Except StoreErr (List (List α)))
    (bos : Nat) (cfg : Cfg) (gp p q : List Nat) (st : RunState α) (err : StoreErr)
    (hempty : st.dataloader = [])
    (herr : get_data_loader E bos cfg gp p q st.records st.storage_buffer = .error err) :
    next_batch E bos cfg gp p q st = .error err := by
  unfold next_batch
  rw [hempty, herr]

theorem claim_C8_witness :
    (⟨[[1, 2]], [], []⟩ : RunState Nat).dataloader = [] ∧
    next_batch (α := Nat) (fun _ => .error (.hookFailure 7)) 0 ⟨1, 1, 3, 1, false⟩ [] [] []
      ⟨[[1, 2]], [], []⟩ = .error (.hookFailure 7) :=
  ⟨rfl, claim_C8 (α := Nat) (fun _ => .error (.hookFailure 7)) 0 ⟨1, 1, 3, 1, false⟩ [] [] []
    ⟨[[1, 2]], [], []⟩ (.hookFailure 7) rfl (by decide)⟩

theorem claim_C9_counterexample :
    init_store (α := Nat) (fun w => .ok (w.map (fun t => [t]))) 0 ⟨1, 1, 3, 1, true⟩
      [] [] [] [] true [] = .error .stopIteration ∧
    StoreErr.stopIteration ≠ StoreErr.notImplemented := by
  exact ⟨by decide, by decide⟩

/-- Claim C9 (amended): if the cached-activation flag is set and the
corpus yields at least one record for the tokenization probe of line 29,
construction fails with the not-implemented error before any buffer
filling; the single-record probe (whose iterator advance is undone by
the reset of line 34) is the only streaming that precedes the check. -/
theorem claim_C9_amended {α : Type} (E : List Nat → Except StoreErr (List (List α)))
    (bos : Nat) (cfg : Cfg) (gp0 gp p q : List Nat) (cdl : Bool)
    (r : List Nat) (rs : List (List Nat))
    (hcached : cfg.use_cached_activations = true) :
    init_store (α := α) E bos cfg gp0 gp p q cdl (r :: rs) = .error .notImplemented := by
  simp [init_store, hcached]

theorem claim_C9_amended_witness :
    (⟨1, 1, 3, 1, true⟩ : Cfg).use_cached_activations = true ∧
    init_store (α := Nat) (fun w => .ok (w.map (fun t => [t]))) 0 ⟨1, 1, 3, 1, true⟩
      [] [] [] [] true [[1]] = .error .notImplemented :=
  ⟨rfl, claim_C9_amended (fun w => .ok (w.map (fun t => [t]))) 0 ⟨1, 1, 3, 1, true⟩
    [] [] [] [] true [1] [] rfl⟩

end ActivationStore
